import Mathlib

/-!
Verification of the StudySphere planner's adaptive scheduling core:
the mastery classifier, the revision scheduler with duplicate
suppression, the daily topic allocator, and the quiz-completion
pipeline handler, shallowly embedded from the TypeScript sources
(the `save-quiz-result` edge function and the Plan page's
`calculateDynamicDistribution` / `getSubjectWeight`).

Dates are modelled as day numbers (`Nat`); the source computes dates by
adding `daysAhead * 24*60*60*1000` milliseconds and taking the UTC date
string, which is exactly day-number addition. JavaScript numeric
arithmetic on weights is modelled over `ℚ`.
-/

namespace StudySphere

/-- Self-reported confidence, the request field
`confidence: 'high' | 'medium' | 'low'` of `SaveQuizResultRequest`. -/
inductive Confidence where
  | high
  | medium
  | low
deriving DecidableEq

/-- The three mastery statuses the classifier can produce
(the string literals assigned to `status` in `save-quiz-result`). -/
inductive MStatus where
  | strong
  | needs_revision
  | weak
deriving DecidableEq

/-- The mastery classifier: the `if/else if/else` chain computing
`status` from `score` and `confidence` in `save-quiz-result`
(identically duplicated in `handleConfidenceSubmit`). -/
def classify (score : ℤ) (confidence : Confidence) : MStatus :=
  if 80 ≤ score ∧ confidence = Confidence.high then MStatus.strong
  else if 50 ≤ score ∨ confidence = Confidence.medium then MStatus.needs_revision
  else MStatus.weak

/-- One entry of the `revisionSchedule` array:
`{ daysAhead: number; requireQuiz: boolean }`. -/
structure RevisionOffset where
  daysAhead : Nat
  requireQuiz : Bool
deriving DecidableEq

/-- The status-to-schedule table: the `if (status === 'strong') ...
else if (status === 'needs_revision') ... else ...` chain that fills
`revisionSchedule` in `save-quiz-result`. -/
def revisionSchedule (status : MStatus) : List RevisionOffset :=
  if status = MStatus.strong then
    [⟨7, false⟩, ⟨21, false⟩]
  else if status = MStatus.needs_revision then
    [⟨3, false⟩, ⟨7, false⟩]
  else
    [⟨1, true⟩]

/-- `task_type` values stored in `study_tasks`. -/
inductive TaskType where
  | study
  | revision
  | quiz
deriving DecidableEq

/-- A row of the `study_tasks` table, with `scheduled_date` as a day
number. -/
structure StudyTaskRec where
  user_id : String
  topic_id : String
  scheduled_date : Nat
  duration_minutes : Nat
  task_type : TaskType
  require_quiz : Bool
  is_completed : Bool
deriving DecidableEq

/-- The candidate revision tasks built from `revisionSchedule`: each
offset is mapped to a task dated `today + daysAhead` with
`duration_minutes: 20`, `task_type: 'revision'`, the offset's
`require_quiz`, and `is_completed: false`. -/
def candidateRevisionTasks (userId topicId : String) (status : MStatus)
    (today : Nat) : List StudyTaskRec :=
  (revisionSchedule status).map (fun r =>
    { user_id := userId
      topic_id := topicId
      scheduled_date := today + r.daysAhead
      duration_minutes := 20
      task_type := TaskType.revision
      require_quiz := r.requireQuiz
      is_completed := false })

/-- Does task `e` match the triple (user `u`, topic `p`, day `d`) as a
revision task? This is the match condition of the duplicate query
(`user_id`, `topic_id`, `task_type = 'revision'`, `scheduled_date`). -/
def revisionMatch (u p : String) (d : Nat) (e : StudyTaskRec) : Bool :=
  decide (e.user_id = u ∧ e.topic_id = p ∧
    e.task_type = TaskType.revision ∧ e.scheduled_date = d)

/-- The existence check behind `existingDates`: is there a task for
this user and topic with `task_type = 'revision'` on day `d`? -/
def hasExistingRevision (tasks : List StudyTaskRec) (userId topicId : String)
    (d : Nat) : Bool :=
  tasks.any (revisionMatch userId topicId d)

/-- `newRevisionTasks`: the candidates whose date is not already taken
by an existing revision task for the same user and topic
(the `.filter(r => !existingDates.has(r.scheduledDate))` step). -/
def newRevisionTasks (tasks : List StudyTaskRec) (userId topicId : String)
    (status : MStatus) (today : Nat) : List StudyTaskRec :=
  (candidateRevisionTasks userId topicId status today).filter
    (fun c => !(hasExistingRevision tasks userId topicId c.scheduled_date))

/-- The revision-insertion step: insert the filtered candidates and
report how many new tasks were created (`revisionsScheduled:
newRevisionTasks.length`). -/
def insertRevisions (tasks : List StudyTaskRec) (userId topicId : String)
    (status : MStatus) (today : Nat) : List StudyTaskRec × Nat :=
  let nt := newRevisionTasks tasks userId topicId status today
  (tasks ++ nt, nt.length)

/-- At most one revision task exists per (user, topic, scheduled_date)
triple: the per-topic-per-date uniqueness invariant of `study_tasks`. -/
def atMostOneRevisionPer (tasks : List StudyTaskRec) : Prop :=
  ∀ u p d, (tasks.filter (revisionMatch u p d)).length ≤ 1

/-! ## Daily Allocator (Plan page `calculateDynamicDistribution`) -/

/-- A topic row as the Plan page sees it, with its chapter's subject
flattened in (the code reads `topic.chapter.subject`); `status` and
`confidence` are nullable strings. -/
structure PlanTopic where
  id : String
  name : String
  status : Option String
  confidence : Option String
  subjectId : String
  subjectName : String
  color : String
deriving DecidableEq

/-- JavaScript truthiness of a nullable string: `null`, `undefined`
and `""` are falsy. -/
def strTruthy : Option String → Bool
  | none => false
  | some s => decide (s ≠ "")

/-- The pending filter `t.status === 'pending' || !t.status`. -/
def isPendingTopic (t : PlanTopic) : Bool :=
  decide (t.status = some "pending") || !(strTruthy t.status)

/-- `topics.filter(t => t.status === 'pending' || !t.status)`. -/
def pendingOf (topics : List PlanTopic) : List PlanTopic :=
  topics.filter isPendingTopic

/-- `Math.round`: round to nearest with halves toward positive
infinity, i.e. `⌊q + 1/2⌋`. -/
def jsRound (q : ℚ) : ℤ := ⌊q + 1 / 2⌋

/-- `getSubjectWeight`: over the subject's topics that carry a truthy
`confidence` value, count the ones equal to the string `'strong'` and
the ones equal to `'weak'`, call everything else medium, and average
with weights strong = 0.8, medium = 1.0, weak = 1.5; with no
confidence data the weight defaults to 1.0. -/
def getSubjectWeight (topics : List PlanTopic) : ℚ :=
  let confidenceLevels :=
    (topics.filterMap (fun t => t.confidence)).filter (fun s => decide (s ≠ ""))
  if confidenceLevels.length = 0 then 1
  else
    let strongCount :=
      (confidenceLevels.filter (fun c => decide (c = "strong"))).length
    let weakCount :=
      (confidenceLevels.filter (fun c => decide (c = "weak"))).length
    let mediumCount := confidenceLevels.length - strongCount - weakCount
    ((strongCount : ℚ) * (8 / 10) + (mediumCount : ℚ) * 1 +
      (weakCount : ℚ) * (3 / 2)) / (confidenceLevels.length : ℚ)

/-- The distinct subject ids of a topic list, in first-appearance order
(the iteration order of the `Map` built by `subjectGroups`). -/
def subjectIdsIn (ts : List PlanTopic) : List String :=
  ts.foldl (fun acc t => if t.subjectId ∈ acc then acc else acc ++ [t.subjectId]) []

/-- The topics of one subject group, in input order. -/
def groupOf (ts : List PlanTopic) (sid : String) : List PlanTopic :=
  ts.filter (fun t => decide (t.subjectId = sid))

/-- One entry of the allocator's per-subject breakdown. -/
structure SubjectDistribution where
  subjectId : String
  subjectName : String
  color : String
  weight : ℚ
  topicCount : Nat
  topics : List PlanTopic
deriving DecidableEq

/-- First-pass per-subject count:
`Math.min(Math.max(1, Math.round(topicsToAllocate * shareRatio)), available)`
with `shareRatio = weight / totalWeight`. -/
def firstPassCount (T : ℤ) (w W : ℚ) (avail : Nat) : Nat :=
  min (max 1 (jsRound ((T : ℚ) * (w / W)))).toNat avail

/-- The allocator's first pass: allocate to each subject in group order
based on its weight ratio, at least 1 each, capped at the subject's
available pending topics, selecting topics from the front of the
group. -/
def firstPass (pend : List PlanTopic) (T : ℤ) : List SubjectDistribution :=
  let sids := subjectIdsIn pend
  let W := (sids.map (fun sid => getSubjectWeight (groupOf pend sid))).sum
  sids.map (fun sid =>
    let g := groupOf pend sid
    let w := getSubjectWeight g
    let c := firstPassCount T w W g.length
    { subjectId := sid
      subjectName := ((g.head?).map (fun t => t.subjectName)).getD ""
      color := ((g.head?).map (fun t => t.color)).getD ""
      weight := w
      topicCount := c
      topics := g.take c })

def sumCounts (ds : List SubjectDistribution) : Nat :=
  (ds.map (fun d => d.topicCount)).sum

def maxCount (ds : List SubjectDistribution) : Nat :=
  (ds.map (fun d => d.topicCount)).foldr max 0

/-- Decrement the first entry (in list order) whose count equals `m`,
dropping its last selected topic. -/
def decFirstEq (m : Nat) : List SubjectDistribution → List SubjectDistribution
  | [] => []
  | d :: rest =>
    if d.topicCount = m then
      { d with topicCount := d.topicCount - 1,
               topics := d.topics.take (d.topicCount - 1) } :: rest
    else
      d :: decFirstEq m rest

/-- One iteration of the trim loop's body: the `reduce` comparator
`a.topicCount > b.topicCount ? a : b` selects the LAST entry with the
maximal `topicCount`, which is decremented by one. -/
def decAtLastMax (ds : List SubjectDistribution) : List SubjectDistribution :=
  (decFirstEq (maxCount ds) ds.reverse).reverse

/-- The trim loop, fuel-indexed: while the allocated total exceeds
`topicsToAllocate`, decrement the largest entry, stopping at the floor
when the largest entry holds a single topic. Each productive iteration
lowers the total by one, so `sumCounts ds` fuel is enough to reach the
loop's exit condition. -/
def trimLoopAux : Nat → ℤ → List SubjectDistribution → List SubjectDistribution
  | 0, _, ds => ds
  | fuel + 1, T, ds =>
    if T < (sumCounts ds : ℤ) ∧ 1 < maxCount ds then
      trimLoopAux fuel T (decAtLastMax ds)
    else ds

def trimLoop (T : ℤ) (ds : List SubjectDistribution) : List SubjectDistribution :=
  trimLoopAux (sumCounts ds) T ds

/-- `distribution.sort((a, b) => b.topicCount - a.topicCount)`: stable
sort by descending `topicCount`. -/
def sortDist (ds : List SubjectDistribution) : List SubjectDistribution :=
  ds.mergeSort (fun a b => decide (b.topicCount ≤ a.topicCount))

/-- The allocator's result: the per-subject breakdown plus the
flattened today-list. -/
structure AllocResult where
  distribution : List SubjectDistribution
  totalTopics : List PlanTopic
deriving DecidableEq

def AVERAGE_TOPIC_MINUTES : ℚ := 30

/-- `calculateDynamicDistribution`: compute the day's topic budget from
`dailyHours`, keep only pending topics, group them by subject, weight
each subject, allocate proportionally with an at-least-one floor, trim
any over-allocation, and order subjects by descending count. -/
def calculateDynamicDistribution (topics : List PlanTopic)
    (dailyHours : ℚ) : AllocResult :=
  let totalAvailableMinutes := dailyHours * 60
  let maxTopicsToday : ℤ := ⌊totalAvailableMinutes / AVERAGE_TOPIC_MINUTES⌋
  let pendingTopics := pendingOf topics
  if pendingTopics.length = 0 then { distribution := [], totalTopics := [] }
  else
    let topicsToAllocate : ℤ := min maxTopicsToday (pendingTopics.length : ℤ)
    let ds := trimLoop topicsToAllocate (firstPass pendingTopics topicsToAllocate)
    let ds2 := sortDist ds
    { distribution := ds2, totalTopics := ds2.flatMap (fun d => d.topics) }

/-! ## The `save-quiz-result` handler pipeline -/

/-- A row of the `topics` table as touched by the handler. -/
structure TopicRec where
  id : String
  user_id : String
  status : Option String
  confidence : Option String
  last_quiz_score : Option ℤ
deriving DecidableEq

/-- A row of the `profiles` table as touched by the handler. -/
structure ProfileRec where
  user_id : String
  last_study_date : Option Nat
  current_streak : Option Nat
deriving DecidableEq

/-- The persistent state the handler reads and writes. -/
structure DBState where
  topics : List TopicRec
  study_tasks : List StudyTaskRec
  profiles : List ProfileRec
deriving DecidableEq

/-- Failure injection for the three fallible writes of the handler.
`topicUpdateFails` models `topicError` (which is thrown), the other two
model `taskError` and `revisionError` (which are only logged). -/
structure DBFaults where
  topicUpdateFails : Bool
  studyTaskInsertFails : Bool
  revisionInsertFails : Bool
deriving DecidableEq

/-- The JSON body the handler responds with: either the success body
`{ success: true, status, revisionsScheduled, streak }` (HTTP 200) or
the catch-all error body `{ error }` (HTTP 500). -/
inductive HandlerResponse where
  | ok (status : MStatus) (revisionsScheduled : Nat) (streak : Nat)
  | err (message : String)
deriving DecidableEq

def confString : Confidence → String
  | Confidence.high => "high"
  | Confidence.medium => "medium"
  | Confidence.low => "low"

def statusString : MStatus → String
  | MStatus.strong => "strong"
  | MStatus.needs_revision => "needs_revision"
  | MStatus.weak => "weak"

/-- The topic update: set `status`, `confidence` and `last_quiz_score`
on the rows matching `id` and `user_id`. -/
def updateTopicStatus (ts : List TopicRec) (topicId userId : String)
    (st : MStatus) (conf : Confidence) (score : ℤ) : List TopicRec :=
  ts.map (fun t =>
    if t.id = topicId ∧ t.user_id = userId then
      { t with status := some (statusString st),
               confidence := some (confString conf),
               last_quiz_score := some score }
    else t)

/-- JavaScript `x || 0` on a nullable number: `null` and `0` give 0. -/
def jsOrZero : Option Nat → Nat
  | none => 0
  | some n => n

/-- JavaScript `x || 1` on a nullable number: `null` and `0` give 1. -/
def jsOrOne : Option Nat → Nat
  | none => 1
  | some n => if n = 0 then 1 else n

/-- The streak computation of the handler: continue the streak when the
profile's `last_study_date` is yesterday, keep it when it is already
today, otherwise restart at 1. -/
def newStreakFor (prof : Option ProfileRec) (today : Nat) : Nat :=
  match prof with
  | some pr =>
    if pr.last_study_date = some (today - 1) then jsOrZero pr.current_streak + 1
    else if pr.last_study_date = some today then jsOrOne pr.current_streak
    else 1
  | none => 1

/-- The `save-quiz-result` handler: classify, write the topic status
(a failure here is thrown and becomes the 500 error response, before
any task write), record today's study task if absent (failure only
logged), insert the deduplicated revision tasks (failure only logged),
update the streak, and answer with the success body — whose
`revisionsScheduled` field is the length of the filtered candidate
list whether or not the revision insert succeeded. -/
def saveQuizResult (db : DBState) (f : DBFaults) (topicId : String)
    (score : ℤ) (confidence : Confidence) (userId : String)
    (today : Nat) : DBState × HandlerResponse :=
  let status := classify score confidence
  if f.topicUpdateFails then
    (db, HandlerResponse.err "topic update failed")
  else
    let db1 := { db with
      topics := updateTopicStatus db.topics topicId userId status confidence score }
    let hasStudyToday := db1.study_tasks.any (fun e =>
      decide (e.user_id = userId ∧ e.topic_id = topicId ∧
        e.scheduled_date = today ∧ e.task_type = TaskType.study))
    let db2 :=
      if !hasStudyToday ∧ !f.studyTaskInsertFails then
        { db1 with study_tasks := db1.study_tasks ++
          [{ user_id := userId, topic_id := topicId, scheduled_date := today,
             duration_minutes := 30, task_type := TaskType.study,
             require_quiz := false, is_completed := true }] }
      else db1
    let nt := newRevisionTasks db2.study_tasks userId topicId status today
    let db3 :=
      if 0 < nt.length ∧ !f.revisionInsertFails then
        { db2 with study_tasks := db2.study_tasks ++ nt }
      else db2
    let streak := newStreakFor (db3.profiles.find?
      (fun pr => decide (pr.user_id = userId))) today
    let db4 := { db3 with profiles := db3.profiles.map (fun pr =>
      if pr.user_id = userId then
        { pr with last_study_date := some today, current_streak := some streak }
      else pr) }
    (db4, HandlerResponse.ok status nt.length streak)

theorem mem_candidates_fields {userId topicId : String} {status : MStatus}
    {today : Nat} {c : StudyTaskRec}
    (h : c ∈ candidateRevisionTasks userId topicId status today) :
    c.user_id = userId ∧ c.topic_id = topicId ∧
    c.task_type = TaskType.revision ∧ c.duration_minutes = 20 := by
  rcases List.mem_map.mp h with ⟨r, _, rfl⟩
  exact ⟨rfl, rfl, rfl, rfl⟩

theorem candidates_dates_pairwise (userId topicId : String) (status : MStatus)
    (today : Nat) :
    (candidateRevisionTasks userId topicId status today).Pairwise
      (fun a b => a.scheduled_date ≠ b.scheduled_date) := by
  cases status <;>
    simp [candidateRevisionTasks, revisionSchedule]

theorem length_filter_of_pairwise_dates (l : List StudyTaskRec)
    (p : StudyTaskRec → Bool)
    (hl : l.Pairwise (fun a b => a.scheduled_date ≠ b.scheduled_date))
    (d : Nat) (hp : ∀ t, p t = true → t.scheduled_date = d) :
    (l.filter p).length ≤ 1 := by
  induction l with
  | nil => simp
  | cons a l ih =>
    rcases List.pairwise_cons.mp hl with ⟨ha, hl2⟩
    by_cases hpa : p a = true
    · have hnil : l.filter p = [] := by
        apply List.filter_eq_nil_iff.mpr
        intro b hb hpb
        exact (ha b hb) (by rw [hp a hpa, hp b hpb])
      simp [List.filter_cons, hpa, hnil]
    · simp only [List.filter_cons, hpa, Bool.false_eq_true, if_false]
      exact ih hl2

/-- C1: for every score in 0–100 and every confidence, the classifier
returns `strong` iff `score >= 80` and `confidence = high`; otherwise it
returns `needs_revision` iff `score >= 50` or `confidence = medium`;
otherwise it returns `weak` (rules in priority order, first match wins). -/
theorem classify_priority_rules (score : ℤ) (conf : Confidence)
    (h0 : 0 ≤ score) (h1 : score ≤ 100) :
    (classify score conf = MStatus.strong ↔
      (80 ≤ score ∧ conf = Confidence.high)) ∧
    (¬(80 ≤ score ∧ conf = Confidence.high) →
      (classify score conf = MStatus.needs_revision ↔
        (50 ≤ score ∨ conf = Confidence.medium))) ∧
    (¬(80 ≤ score ∧ conf = Confidence.high) →
      ¬(50 ≤ score ∨ conf = Confidence.medium) →
      classify score conf = MStatus.weak) := by
  unfold classify
  split_ifs with hA hB <;> simp_all

theorem classify_priority_rules_witness :
    classify 85 Confidence.high = MStatus.strong ↔
      (80 ≤ (85 : ℤ) ∧ Confidence.high = Confidence.high) :=
  (classify_priority_rules 85 Confidence.high (by decide) (by decide)).1

/-- C2: the scheduler produces exactly the candidates of the fixed
table, in order — `strong` yields `today+7` and `today+21` with
`requireQuiz = false`, `needs_revision` yields `today+3` and `today+7`
with `requireQuiz = false`, `weak` yields `today+1` with
`requireQuiz = true` — and for every status each candidate task has
`task_type = revision` and `duration_minutes = 20`. -/
theorem revision_schedule_table (status : MStatus)
    (userId topicId : String) (today : Nat) :
    candidateRevisionTasks userId topicId MStatus.strong today =
      [{ user_id := userId, topic_id := topicId, scheduled_date := today + 7,
         duration_minutes := 20, task_type := TaskType.revision,
         require_quiz := false, is_completed := false },
       { user_id := userId, topic_id := topicId, scheduled_date := today + 21,
         duration_minutes := 20, task_type := TaskType.revision,
         require_quiz := false, is_completed := false }] ∧
    candidateRevisionTasks userId topicId MStatus.needs_revision today =
      [{ user_id := userId, topic_id := topicId, scheduled_date := today + 3,
         duration_minutes := 20, task_type := TaskType.revision,
         require_quiz := false, is_completed := false },
       { user_id := userId, topic_id := topicId, scheduled_date := today + 7,
         duration_minutes := 20, task_type := TaskType.revision,
         require_quiz := false, is_completed := false }] ∧
    candidateRevisionTasks userId topicId MStatus.weak today =
      [{ user_id := userId, topic_id := topicId, scheduled_date := today + 1,
         duration_minutes := 20, task_type := TaskType.revision,
         require_quiz := true, is_completed := false }] ∧
    ∀ t ∈ candidateRevisionTasks userId topicId status today,
      t.task_type = TaskType.revision ∧ t.duration_minutes = 20 := by
  refine ⟨rfl, rfl, rfl, ?_⟩
  cases status <;> simp [candidateRevisionTasks, revisionSchedule]

/-- C9 counterexample: the claim says every score below 50 with
confidence different from `high` classifies as `weak`, but
`classify 30 medium = needs_revision` (rule 2 fires on
`confidence = medium`). -/
theorem classify_low_score_cex :
    (30 : ℤ) < 50 ∧ Confidence.medium ≠ Confidence.high ∧
    classify 30 Confidence.medium ≠ MStatus.weak ∧
    classify 30 Confidence.medium = MStatus.needs_revision := by decide

/-- C9 (amended): for every score below 50 with confidence `low`
(different from both `high` and `medium`), the classifier returns
`weak`. -/
theorem classify_low_score_weak (score : ℤ) (h : score < 50) :
    classify score Confidence.low = MStatus.weak := by
  unfold classify
  have h1 : ¬(80 ≤ score ∧ Confidence.low = Confidence.high) := by
    rintro ⟨hs, hc⟩
    exact absurd hc (by decide)
  have h2 : ¬(50 ≤ score ∨ Confidence.low = Confidence.medium) := by
    intro hor
    rcases hor with hs | hc
    · omega
    · exact absurd hc (by decide)
  rw [if_neg h1, if_neg h2]

theorem classify_low_score_weak_witness :
    classify 40 Confidence.low = MStatus.weak :=
  classify_low_score_weak 40 (by decide)

/-- C3: the revision-insertion step appends exactly the candidates
whose (user, topic, scheduled_date) has no existing revision task and
reports the number of tasks it actually inserted; it preserves the
at-most-one-revision-task-per-(user, topic, date) invariant, and
running it a second time with the same quiz outcome and unchanged date
inserts zero new tasks (idempotence), with no error on duplicates. -/
theorem insert_revisions_dedup_invariant (tasks : List StudyTaskRec)
    (userId topicId : String) (status : MStatus) (today : Nat)
    (hinv : atMostOneRevisionPer tasks) :
    (insertRevisions tasks userId topicId status today).1 =
      tasks ++ (candidateRevisionTasks userId topicId status today).filter
        (fun c => !(hasExistingRevision tasks userId topicId c.scheduled_date)) ∧
    (insertRevisions tasks userId topicId status today).2 =
      (insertRevisions tasks userId topicId status today).1.length - tasks.length ∧
    atMostOneRevisionPer (insertRevisions tasks userId topicId status today).1 ∧
    insertRevisions (insertRevisions tasks userId topicId status today).1
        userId topicId status today =
      ((insertRevisions tasks userId topicId status today).1, 0) := by
  refine ⟨rfl, ?_, ?_, ?_⟩
  · show (newRevisionTasks tasks userId topicId status today).length =
      (tasks ++ newRevisionTasks tasks userId topicId status today).length -
        tasks.length
    rw [List.length_append]
    omega
  · intro u p d
    show ((tasks ++ newRevisionTasks tasks userId topicId status today).filter
      (revisionMatch u p d)).length ≤ 1
    rw [List.filter_append, List.length_append]
    by_cases hner :
        (newRevisionTasks tasks userId topicId status today).filter
          (revisionMatch u p d) = []
    · rw [hner]
      simpa using hinv u p d
    · obtain ⟨c, hc⟩ := List.exists_mem_of_ne_nil _ hner
      have hcnt : c ∈ newRevisionTasks tasks userId topicId status today :=
        (List.mem_filter.mp hc).1
      have hcm : revisionMatch u p d c = true := (List.mem_filter.mp hc).2
      have hcand : c ∈ candidateRevisionTasks userId topicId status today :=
        (List.mem_filter.mp hcnt).1
      have hnoex : hasExistingRevision tasks userId topicId
          c.scheduled_date = false := by
        have hkeep := (List.mem_filter.mp hcnt).2
        simpa using hkeep
      rcases mem_candidates_fields hcand with ⟨hu, hp2, _, _⟩
      simp only [revisionMatch, decide_eq_true_eq] at hcm
      obtain ⟨h1, h2, _, h4⟩ := hcm
      have hu2 : u = userId := by rw [← h1, hu]
      have hp3 : p = topicId := by rw [← h2, hp2]
      have hd : d = c.scheduled_date := h4.symm
      rw [hu2, hp3, hd]
      have hall : ∀ b ∈ tasks,
          ¬(revisionMatch userId topicId c.scheduled_date b = true) := by
        intro b hb hpb
        have hany : tasks.any
            (revisionMatch userId topicId c.scheduled_date) = true :=
          List.any_eq_true.mpr ⟨b, hb, hpb⟩
        simp only [hasExistingRevision] at hnoex
        rw [hany] at hnoex
        exact Bool.noConfusion hnoex
      have htasks0 : tasks.filter
          (revisionMatch userId topicId c.scheduled_date) = [] :=
        List.filter_eq_nil_iff.mpr hall
      rw [htasks0]
      simp only [List.length_nil, Nat.zero_add]
      have hpw : (newRevisionTasks tasks userId topicId status today).Pairwise
          (fun a b => a.scheduled_date ≠ b.scheduled_date) := by
        unfold newRevisionTasks
        exact List.Pairwise.sublist (List.filter_sublist _)
          (candidates_dates_pairwise userId topicId status today)
      refine length_filter_of_pairwise_dates _ _ hpw c.scheduled_date ?_
      intro t hpt
      simp only [revisionMatch, decide_eq_true_eq] at hpt
      exact hpt.2.2.2
  · have hnt2 : newRevisionTasks
        (tasks ++ newRevisionTasks tasks userId topicId status today)
        userId topicId status today = [] := by
      unfold newRevisionTasks
      apply List.filter_eq_nil_iff.mpr
      intro c hc hkeep
      have hex : hasExistingRevision
          (tasks ++ newRevisionTasks tasks userId topicId status today)
          userId topicId c.scheduled_date = true := by
        simp only [hasExistingRevision]
        rw [List.any_append]
        by_cases hex0 : hasExistingRevision tasks userId topicId
            c.scheduled_date = true
        · simp only [hasExistingRevision] at hex0
          rw [hex0]
          rfl
        · have hcnt : c ∈ newRevisionTasks tasks userId topicId status today := by
            unfold newRevisionTasks
            refine List.mem_filter.mpr ⟨hc, ?_⟩
            simp only [Bool.not_eq_true] at hex0
            simp [hex0]
          have hcm : revisionMatch userId topicId c.scheduled_date c = true := by
            rcases mem_candidates_fields hc with ⟨hu, hp2, hty, _⟩
            simp [revisionMatch, hu, hp2, hty]
          have hany : (newRevisionTasks tasks userId topicId status today).any
              (revisionMatch userId topicId c.scheduled_date) = true :=
            List.any_eq_true.mpr ⟨c, hcnt, hcm⟩
          rw [hany]
          simp
      unfold newRevisionTasks at hex
      rw [hex] at hkeep
      exact Bool.noConfusion hkeep
    show insertRevisions
        (tasks ++ newRevisionTasks tasks userId topicId status today)
        userId topicId status today = _
    simp only [insertRevisions, hnt2]
    simp

theorem insert_revisions_dedup_invariant_witness :
    insertRevisions
        ((insertRevisions [] "u1" "t1" MStatus.weak 10).1)
        "u1" "t1" MStatus.weak 10 =
      ((insertRevisions [] "u1" "t1" MStatus.weak 10).1, 0) :=
  (insert_revisions_dedup_invariant [] "u1" "t1" MStatus.weak 10
    (by intro u p d; simp)).2.2.2

/-- C4 (code evaluated at the failing input): a subject whose single
topic has confidence `'high'` gets weight 1, not the 0.8 the spec's
table assigns to strong confidence, and a single `'low'` topic gets
weight 1, not 1.5; the 0.8 branch only reacts to the literal string
`'strong'`, which the quiz pipeline never writes to `confidence`. -/
theorem subject_weight_ignores_pipeline_values :
    getSubjectWeight
      [{ id := "t1", name := "T1", status := some "pending",
         confidence := some "high", subjectId := "s1",
         subjectName := "S1", color := "blue" }] = 1 ∧
    getSubjectWeight
      [{ id := "t2", name := "T2", status := some "pending",
         confidence := some "low", subjectId := "s1",
         subjectName := "S1", color := "blue" }] = 1 ∧
    getSubjectWeight
      [{ id := "t3", name := "T3", status := some "pending",
         confidence := some "strong", subjectId := "s1",
         subjectName := "S1", color := "blue" }] = 8 / 10 ∧
    (8 / 10 : ℚ) ≠ 1 ∧ (3 / 2 : ℚ) ≠ 1 := by
  refine ⟨?_, ?_, ?_, by norm_num, by norm_num⟩ <;>
    simp [getSubjectWeight]

theorem getSubjectWeight_eq_one (ts : List PlanTopic)
    (h : ∀ t ∈ ts, ∀ c, t.confidence = some c →
      c = "high" ∨ c = "medium" ∨ c = "low") :
    getSubjectWeight ts = 1 := by
  unfold getSubjectWeight
  set lvls :=
    (ts.filterMap (fun t => t.confidence)).filter (fun s => decide (s ≠ ""))
    with hl
  have hmem : ∀ s ∈ lvls, s = "high" ∨ s = "medium" ∨ s = "low" := by
    intro s hs
    rw [hl] at hs
    have hs2 := (List.mem_filter.mp hs).1
    rcases List.mem_filterMap.mp hs2 with ⟨t, ht, hc⟩
    exact h t ht s hc
  by_cases hlen : lvls.length = 0
  · simp [hlen]
  · have hstrong : lvls.filter (fun c => decide (c = "strong")) = [] := by
      apply List.filter_eq_nil_iff.mpr
      intro s hs hdec
      rcases hmem s hs with h1 | h1 | h1 <;> simp [h1] at hdec
    have hweak : lvls.filter (fun c => decide (c = "weak")) = [] := by
      apply List.filter_eq_nil_iff.mpr
      intro s hs hdec
      rcases hmem s hs with h1 | h1 | h1 <;> simp [h1] at hdec
    simp only [hlen, if_false, hstrong, hweak, List.length_nil,
      Nat.cast_zero, zero_mul, Nat.sub_zero, mul_one, zero_add, add_zero]
    exact div_self (Nat.cast_ne_zero.mpr hlen)

/-- C5: whenever every set confidence value is one of the strings
`'high'`, `'medium'`, `'low'` — the only values the quiz pipeline ever
writes — the computed subject weight is exactly 1, so every subject
entry built by the allocator's first pass carries weight 1 (equal
shares) regardless of the confidence mix. -/
theorem subject_weight_pipeline_one (topics : List PlanTopic)
    (h : ∀ t ∈ topics, ∀ c, t.confidence = some c →
      c = "high" ∨ c = "medium" ∨ c = "low") :
    getSubjectWeight topics = 1 ∧
    ∀ (T : ℤ), ∀ d ∈ firstPass (pendingOf topics) T, d.weight = 1 := by
  constructor
  · exact getSubjectWeight_eq_one topics h
  · intro T d hd
    simp only [firstPass, List.mem_map] at hd
    obtain ⟨sid, hsid, rfl⟩ := hd
    show getSubjectWeight (groupOf (pendingOf topics) sid) = 1
    apply getSubjectWeight_eq_one
    intro t ht c hc
    have ht1 : t ∈ pendingOf topics := (List.mem_filter.mp ht).1
    have ht2 : t ∈ topics := (List.mem_filter.mp ht1).1
    exact h t ht2 c hc

theorem subject_weight_pipeline_one_witness :
    getSubjectWeight
      [{ id := "t1", name := "T1", status := some "pending",
         confidence := some "high", subjectId := "s1",
         subjectName := "S1", color := "blue" }] = 1 :=
  (subject_weight_pipeline_one _ (by
    intro t ht c hc
    rw [List.mem_singleton] at ht
    subst ht
    simp only [Option.some.injEq] at hc
    subst hc
    left
    rfl)).1

/-! ### Allocator helper lemmas -/

theorem foldr_max_zero_mem (l : List Nat) :
    l.foldr max 0 = 0 ∨ l.foldr max 0 ∈ l := by
  induction l with
  | nil => left; rfl
  | cons a l ih =>
    simp only [List.foldr_cons]
    rcases Nat.le_total a (l.foldr max 0) with hle | hle
    · rw [Nat.max_eq_right hle]
      rcases ih with h0 | hm
      · left; exact h0
      · right; exact List.mem_cons_of_mem a hm
    · rw [Nat.max_eq_left hle]
      right; exact List.mem_cons_self a l

theorem le_foldr_max (l : List Nat) (x : Nat) (hx : x ∈ l) :
    x ≤ l.foldr max 0 := by
  induction l with
  | nil => cases hx
  | cons a l ih =>
    simp only [List.foldr_cons]
    rcases List.mem_cons.mp hx with rfl | hm
    · exact Nat.le_max_left _ _
    · exact le_trans (ih hm) (Nat.le_max_right _ _)

theorem mem_subjectIdsIn_aux (ts : List PlanTopic) (acc : List String)
    (x : String) :
    x ∈ ts.foldl (fun acc t =>
        if t.subjectId ∈ acc then acc else acc ++ [t.subjectId]) acc ↔
      x ∈ acc ∨ ∃ t ∈ ts, t.subjectId = x := by
  induction ts generalizing acc with
  | nil => simp
  | cons t ts ih =>
    simp only [List.foldl_cons]
    rw [ih]
    by_cases hmem : t.subjectId ∈ acc
    · simp only [hmem, if_true]
      constructor
      · rintro (hx | hx)
        · exact Or.inl hx
        · right; obtain ⟨u, hu, hux⟩ := hx; exact ⟨u, List.mem_cons_of_mem t hu, hux⟩
      · rintro (hx | ⟨u, hu, hux⟩)
        · exact Or.inl hx
        · rcases List.mem_cons.mp hu with rfl | hu2
          · left; rw [← hux]; exact hmem
          · right; exact ⟨u, hu2, hux⟩
    · simp only [hmem, if_false, List.mem_append, List.mem_singleton]
      constructor
      · rintro ((hx | hx) | hx)
        · exact Or.inl hx
        · right; exact ⟨t, List.mem_cons_self t ts, hx.symm⟩
        · right; obtain ⟨u, hu, hux⟩ := hx; exact ⟨u, List.mem_cons_of_mem t hu, hux⟩
      · rintro (hx | ⟨u, hu, hux⟩)
        · exact Or.inl (Or.inl hx)
        · rcases List.mem_cons.mp hu with rfl | hu2
          · exact Or.inl (Or.inr hux.symm)
          · right; exact ⟨u, hu2, hux⟩

theorem mem_subjectIdsIn (ts : List PlanTopic) (x : String) :
    x ∈ subjectIdsIn ts ↔ ∃ t ∈ ts, t.subjectId = x := by
  rw [subjectIdsIn, mem_subjectIdsIn_aux]
  simp

theorem subjectIdsIn_nodup_aux (ts : List PlanTopic) (acc : List String)
    (hacc : acc.Nodup) :
    (ts.foldl (fun acc t =>
      if t.subjectId ∈ acc then acc else acc ++ [t.subjectId]) acc).Nodup := by
  induction ts generalizing acc with
  | nil => exact hacc
  | cons t ts ih =>
    simp only [List.foldl_cons]
    by_cases hmem : t.subjectId ∈ acc
    · simp only [hmem, if_true]
      exact ih acc hacc
    · simp only [hmem, if_false]
      apply ih
      simp [List.nodup_append, hacc, hmem]

theorem subjectIdsIn_nodup (ts : List PlanTopic) : (subjectIdsIn ts).Nodup :=
  subjectIdsIn_nodup_aux ts [] List.nodup_nil

theorem sum_map_ite_eq_one (ks : List String) (a : String)
    (hnd : ks.Nodup) (ha : a ∈ ks) :
    (ks.map (fun k => if a = k then 1 else 0)).sum = 1 := by
  induction ks with
  | nil => cases ha
  | cons k ks ih =>
    rcases List.nodup_cons.mp hnd with ⟨hk, hnd2⟩
    rcases List.mem_cons.mp ha with rfl | hm
    · simp only [List.map_cons, List.sum_cons, if_pos rfl]
      have h0 : (ks.map (fun j => if a = j then 1 else 0)).sum = 0 := by
        apply List.sum_eq_zero
        intro x hx
        rcases List.mem_map.mp hx with ⟨j, hj, rfl⟩
        have : ¬(a = j) := fun hEq => hk (hEq ▸ hj)
        simp [this]
      rw [h0]
      simp
    · have hak : ¬(a = k) := by
        rintro rfl
        exact hk hm
      simp only [List.map_cons, List.sum_cons, if_neg hak]
      rw [ih hnd2 hm]

theorem sum_map_add_nat {α : Type} (l : List α) (f g : α → Nat) :
    (l.map (fun x => f x + g x)).sum = (l.map f).sum + (l.map g).sum := by
  induction l with
  | nil => rfl
  | cons a l ih =>
    simp only [List.map_cons, List.sum_cons, ih]
    omega

theorem groupOf_cons (t : PlanTopic) (ts : List PlanTopic) (sid : String) :
    groupOf (t :: ts) sid =
      if t.subjectId = sid then t :: groupOf ts sid else groupOf ts sid := by
  simp only [groupOf, List.filter_cons]
  by_cases h : t.subjectId = sid <;> simp [h]

theorem sum_group_lengths (ts : List PlanTopic) (ks : List String)
    (hnd : ks.Nodup) (hcov : ∀ t ∈ ts, t.subjectId ∈ ks) :
    (ks.map (fun k => (groupOf ts k).length)).sum = ts.length := by
  induction ts with
  | nil => simp [groupOf]
  | cons t ts ih =>
    have hcov2 : ∀ u ∈ ts, u.subjectId ∈ ks := fun u hu =>
      hcov u (List.mem_cons_of_mem t hu)
    have hsplit : ∀ k, (groupOf (t :: ts) k).length =
        (if t.subjectId = k then 1 else 0) + (groupOf ts k).length := by
      intro k
      rw [groupOf_cons]
      by_cases h : t.subjectId = k <;> simp [h] <;> omega
    have hmapEq : (ks.map (fun k => (groupOf (t :: ts) k).length)) =
        ks.map (fun k =>
          (if t.subjectId = k then 1 else 0) + (groupOf ts k).length) :=
      List.map_congr_left (fun k _ => hsplit k)
    rw [hmapEq]
    rw [sum_map_add_nat ks (fun k => if t.subjectId = k then 1 else 0)
      (fun k => (groupOf ts k).length)]
    rw [sum_map_ite_eq_one ks t.subjectId hnd
      (hcov t (List.mem_cons_self t ts)), ih hcov2]
    simp [Nat.add_comm]

theorem getSubjectWeight_nonneg (ts : List PlanTopic) :
    0 ≤ getSubjectWeight ts := by
  unfold getSubjectWeight
  dsimp only
  split_ifs with h
  · norm_num
  · apply div_nonneg
    · positivity
    · positivity

theorem firstPassCount_pos (T : ℤ) (w W : ℚ) (avail : Nat) (h : 1 ≤ avail) :
    1 ≤ firstPassCount T w W avail := by
  unfold firstPassCount
  have h1 : (1 : ℤ) ≤ max 1 (jsRound ((T : ℚ) * (w / W))) := le_max_left _ _
  omega

theorem firstPassCount_le (T : ℤ) (w W : ℚ) (avail : Nat) :
    firstPassCount T w W avail ≤ avail := Nat.min_le_right _ _

theorem firstPassCount_mono (T1 T2 : ℤ) (hT : T1 ≤ T2) (w W : ℚ)
    (hw : 0 ≤ w / W) (avail : Nat) :
    firstPassCount T1 w W avail ≤ firstPassCount T2 w W avail := by
  unfold firstPassCount
  have hmul : (T1 : ℚ) * (w / W) ≤ (T2 : ℚ) * (w / W) := by
    apply mul_le_mul_of_nonneg_right _ hw
    exact_mod_cast hT
  have hround : jsRound ((T1 : ℚ) * (w / W)) ≤ jsRound ((T2 : ℚ) * (w / W)) := by
    unfold jsRound
    exact Int.floor_le_floor (by linarith)
  omega

theorem firstPass_length (pend : List PlanTopic) (T : ℤ) :
    (firstPass pend T).length = (subjectIdsIn pend).length := by
  simp [firstPass]

theorem firstPass_counts_sum (pend : List PlanTopic) (T : ℤ) :
    sumCounts (firstPass pend T) =
      ((subjectIdsIn pend).map (fun sid =>
        firstPassCount T (getSubjectWeight (groupOf pend sid))
          (((subjectIdsIn pend).map
            (fun s => getSubjectWeight (groupOf pend s))).sum)
          (groupOf pend sid).length)).sum := by
  simp only [sumCounts, firstPass, List.map_map]
  rfl

theorem firstPass_mem (pend : List PlanTopic) (T : ℤ) (d : SubjectDistribution)
    (hd : d ∈ firstPass pend T) :
    ∃ sid ∈ subjectIdsIn pend,
      d.subjectId = sid ∧
      d.weight = getSubjectWeight (groupOf pend sid) ∧
      d.topicCount = firstPassCount T (getSubjectWeight (groupOf pend sid))
        (((subjectIdsIn pend).map
          (fun s => getSubjectWeight (groupOf pend s))).sum)
        (groupOf pend sid).length ∧
      d.topics = (groupOf pend sid).take d.topicCount := by
  simp only [firstPass, List.mem_map] at hd
  obtain ⟨sid, hsid, rfl⟩ := hd
  exact ⟨sid, hsid, rfl, rfl, rfl, rfl⟩

theorem firstPass_all_pos (pend : List PlanTopic) (T : ℤ)
    (d : SubjectDistribution) (hd : d ∈ firstPass pend T) :
    1 ≤ d.topicCount ∧ d.topics.length = d.topicCount := by
  obtain ⟨sid, hsid, _, _, hcount, htopics⟩ := firstPass_mem pend T d hd
  have hg : 1 ≤ (groupOf pend sid).length := by
    rcases (mem_subjectIdsIn pend sid).mp hsid with ⟨t, ht, hts⟩
    have htg : t ∈ groupOf pend sid := List.mem_filter.mpr ⟨ht, by simp [hts]⟩
    exact List.length_pos.mpr (List.ne_nil_of_mem htg)
  constructor
  · rw [hcount]
    exact firstPassCount_pos _ _ _ _ hg
  · rw [htopics, List.length_take]
    have hle : d.topicCount ≤ (groupOf pend sid).length := by
      rw [hcount]
      exact firstPassCount_le _ _ _ _
    omega

theorem firstPass_map_subjectId (pend : List PlanTopic) (T : ℤ) :
    (firstPass pend T).map (fun d => d.subjectId) = subjectIdsIn pend := by
  simp only [firstPass, List.map_map]
  exact List.map_id _

theorem firstPass_sum_le_pend (pend : List PlanTopic) (T : ℤ) :
    sumCounts (firstPass pend T) ≤ pend.length := by
  rw [firstPass_counts_sum]
  calc ((subjectIdsIn pend).map (fun sid =>
          firstPassCount T (getSubjectWeight (groupOf pend sid))
            (((subjectIdsIn pend).map
              (fun s => getSubjectWeight (groupOf pend s))).sum)
            (groupOf pend sid).length)).sum
      ≤ ((subjectIdsIn pend).map (fun sid => (groupOf pend sid).length)).sum := by
        apply List.sum_le_sum
        intro sid _
        exact firstPassCount_le _ _ _ _
    _ = pend.length := sum_group_lengths pend (subjectIdsIn pend)
        (subjectIdsIn_nodup pend)
        (fun t ht => (mem_subjectIdsIn pend t.subjectId).mpr ⟨t, ht, rfl⟩)

theorem firstPass_sum_mono (pend : List PlanTopic) (T1 T2 : ℤ) (hT : T1 ≤ T2) :
    sumCounts (firstPass pend T1) ≤ sumCounts (firstPass pend T2) := by
  rw [firstPass_counts_sum, firstPass_counts_sum]
  apply List.sum_le_sum
  intro sid _
  apply firstPassCount_mono T1 T2 hT
  apply div_nonneg (getSubjectWeight_nonneg _)
  apply List.sum_nonneg
  intro x hx
  rcases List.mem_map.mp hx with ⟨s, _, rfl⟩
  exact getSubjectWeight_nonneg _

theorem sumCounts_cons (d : SubjectDistribution)
    (rest : List SubjectDistribution) :
    sumCounts (d :: rest) = d.topicCount + sumCounts rest := by
  simp [sumCounts]

theorem decFirstEq_length (m : Nat) (l : List SubjectDistribution) :
    (decFirstEq m l).length = l.length := by
  induction l with
  | nil => rfl
  | cons d rest ih =>
    unfold decFirstEq
    by_cases h : d.topicCount = m <;> simp [h, ih]

theorem decFirstEq_map_subjectId (m : Nat) (l : List SubjectDistribution) :
    (decFirstEq m l).map (fun d => d.subjectId) =
      l.map (fun d => d.subjectId) := by
  induction l with
  | nil => rfl
  | cons d rest ih =>
    unfold decFirstEq
    by_cases h : d.topicCount = m <;> simp [h, ih]

theorem decFirstEq_sum (m : Nat) (l : List SubjectDistribution)
    (hex : ∃ d ∈ l, d.topicCount = m) (hm : 1 ≤ m) :
    sumCounts (decFirstEq m l) + 1 = sumCounts l := by
  induction l with
  | nil =>
    obtain ⟨d, hd, _⟩ := hex
    cases hd
  | cons d rest ih =>
    unfold decFirstEq
    by_cases h : d.topicCount = m
    · rw [if_pos h, sumCounts_cons, sumCounts_cons]
      simp only
      omega
    · rw [if_neg h, sumCounts_cons, sumCounts_cons]
      have hex2 : ∃ e ∈ rest, e.topicCount = m := by
        obtain ⟨e, he, hem⟩ := hex
        rcases List.mem_cons.mp he with rfl | he2
        · exact absurd hem h
        · exact ⟨e, he2, hem⟩
      have := ih hex2
      omega

theorem decFirstEq_all_pos (m : Nat) (l : List SubjectDistribution)
    (h1 : ∀ d ∈ l, 1 ≤ d.topicCount) (hm : 2 ≤ m) :
    ∀ d ∈ decFirstEq m l, 1 ≤ d.topicCount := by
  induction l with
  | nil =>
    intro d hd
    cases hd
  | cons a rest ih =>
    intro d hd
    unfold decFirstEq at hd
    by_cases h : a.topicCount = m
    · rw [if_pos h] at hd
      rcases List.mem_cons.mp hd with rfl | hd2
      · show 1 ≤ a.topicCount - 1
        omega
      · exact h1 d (List.mem_cons_of_mem a hd2)
    · rw [if_neg h] at hd
      rcases List.mem_cons.mp hd with rfl | hd2
      · exact h1 d (List.mem_cons_self _ _)
      · exact ih (fun e he => h1 e (List.mem_cons_of_mem a he)) d hd2

theorem decFirstEq_topicsLen (m : Nat) (l : List SubjectDistribution)
    (h1 : ∀ d ∈ l, d.topics.length = d.topicCount) :
    ∀ d ∈ decFirstEq m l, d.topics.length = d.topicCount := by
  induction l with
  | nil =>
    intro d hd
    cases hd
  | cons a rest ih =>
    intro d hd
    unfold decFirstEq at hd
    by_cases h : a.topicCount = m
    · rw [if_pos h] at hd
      rcases List.mem_cons.mp hd with rfl | hd2
      · show (a.topics.take (a.topicCount - 1)).length = a.topicCount - 1
        rw [List.length_take, h1 a (List.mem_cons_self _ _)]
        omega
      · exact h1 d (List.mem_cons_of_mem a hd2)
    · rw [if_neg h] at hd
      rcases List.mem_cons.mp hd with rfl | hd2
      · exact h1 d (List.mem_cons_self _ _)
      · exact ih (fun e he => h1 e (List.mem_cons_of_mem a he)) d hd2

theorem maxCount_mem (ds : List SubjectDistribution) (h : 0 < maxCount ds) :
    ∃ d ∈ ds, d.topicCount = maxCount ds := by
  rcases foldr_max_zero_mem (ds.map (fun d => d.topicCount)) with h0 | hm
  · rw [maxCount] at h
    omega
  · rcases List.mem_map.mp hm with ⟨d, hd, hdc⟩
    exact ⟨d, hd, hdc⟩

theorem count_le_maxCount (ds : List SubjectDistribution)
    (d : SubjectDistribution) (hd : d ∈ ds) :
    d.topicCount ≤ maxCount ds :=
  le_foldr_max _ _ (List.mem_map_of_mem _ hd)

theorem sumCounts_reverse (ds : List SubjectDistribution) :
    sumCounts ds.reverse = sumCounts ds := by
  simp [sumCounts, List.map_reverse, List.sum_reverse]

theorem decAtLastMax_sum (ds : List SubjectDistribution)
    (h : 1 < maxCount ds) :
    sumCounts (decAtLastMax ds) + 1 = sumCounts ds := by
  unfold decAtLastMax
  rw [sumCounts_reverse]
  have hex : ∃ d ∈ ds.reverse, d.topicCount = maxCount ds := by
    obtain ⟨d, hd, hdm⟩ := maxCount_mem ds (by omega)
    exact ⟨d, List.mem_reverse.mpr hd, hdm⟩
  rw [decFirstEq_sum (maxCount ds) ds.reverse hex (by omega), sumCounts_reverse]

theorem decAtLastMax_all_pos (ds : List SubjectDistribution)
    (h1 : ∀ d ∈ ds, 1 ≤ d.topicCount) (h : 1 < maxCount ds) :
    ∀ d ∈ decAtLastMax ds, 1 ≤ d.topicCount := by
  intro d hd
  have hd2 : d ∈ decFirstEq (maxCount ds) ds.reverse := List.mem_reverse.mp hd
  exact decFirstEq_all_pos _ _
    (fun e he => h1 e (List.mem_reverse.mp he)) (by omega) d hd2

theorem decAtLastMax_topicsLen (ds : List SubjectDistribution)
    (hlen : ∀ d ∈ ds, d.topics.length = d.topicCount) :
    ∀ d ∈ decAtLastMax ds, d.topics.length = d.topicCount := by
  intro d hd
  have hd2 : d ∈ decFirstEq (maxCount ds) ds.reverse := List.mem_reverse.mp hd
  exact decFirstEq_topicsLen _ _
    (fun e he => hlen e (List.mem_reverse.mp he)) d hd2

theorem decAtLastMax_length (ds : List SubjectDistribution) :
    (decAtLastMax ds).length = ds.length := by
  unfold decAtLastMax
  rw [List.length_reverse, decFirstEq_length, List.length_reverse]

theorem decAtLastMax_map_subjectId (ds : List SubjectDistribution) :
    (decAtLastMax ds).map (fun d => d.subjectId) =
      ds.map (fun d => d.subjectId) := by
  unfold decAtLastMax
  rw [List.map_reverse, decFirstEq_map_subjectId, List.map_reverse,
    List.reverse_reverse]

theorem length_le_sumCounts (ds : List SubjectDistribution)
    (h1 : ∀ d ∈ ds, 1 ≤ d.topicCount) :
    ds.length ≤ sumCounts ds := by
  induction ds with
  | nil => simp [sumCounts]
  | cons d rest ih =>
    rw [sumCounts_cons]
    simp only [List.length_cons]
    have hd := h1 d (List.mem_cons_self _ _)
    have hr := ih (fun e he => h1 e (List.mem_cons_of_mem d he))
    omega

theorem sumCounts_le_len (ds : List SubjectDistribution)
    (h1 : ∀ d ∈ ds, d.topicCount ≤ 1) :
    sumCounts ds ≤ ds.length := by
  induction ds with
  | nil => simp [sumCounts]
  | cons d rest ih =>
    rw [sumCounts_cons]
    simp only [List.length_cons]
    have hd := h1 d (List.mem_cons_self _ _)
    have hr := ih (fun e he => h1 e (List.mem_cons_of_mem d he))
    omega

theorem sumCounts_ge_len_add_one_of_mem (ds : List SubjectDistribution)
    (d0 : SubjectDistribution) (hd0 : d0 ∈ ds) (h2 : 2 ≤ d0.topicCount)
    (h1 : ∀ d ∈ ds, 1 ≤ d.topicCount) :
    ds.length + 1 ≤ sumCounts ds := by
  induction ds with
  | nil => cases hd0
  | cons a rest ih =>
    rw [sumCounts_cons]
    simp only [List.length_cons]
    rcases List.mem_cons.mp hd0 with rfl | hr
    · have hrest := length_le_sumCounts rest
        (fun e he => h1 e (List.mem_cons_of_mem d0 he))
      omega
    · have ha := h1 a (List.mem_cons_self a rest)
      have ihr := ih hr (fun e he => h1 e (List.mem_cons_of_mem a he))
      omega

theorem sumCounts_ge_len_add_one (ds : List SubjectDistribution)
    (h1 : ∀ d ∈ ds, 1 ≤ d.topicCount) (h : 1 < maxCount ds) :
    ds.length + 1 ≤ sumCounts ds := by
  obtain ⟨d0, hd0, hd0m⟩ := maxCount_mem ds (by omega)
  exact sumCounts_ge_len_add_one_of_mem ds d0 hd0 (by omega) h1

theorem trimLoopAux_sum (fuel : Nat) (T : ℤ) (ds : List SubjectDistribution)
    (hfuel : sumCounts ds ≤ fuel)
    (h1 : ∀ d ∈ ds, 1 ≤ d.topicCount) :
    (sumCounts (trimLoopAux fuel T ds) : ℤ) =
      if (sumCounts ds : ℤ) ≤ T then (sumCounts ds : ℤ)
      else max T (ds.length : ℤ) := by
  induction fuel generalizing ds with
  | zero =>
    have hsum : sumCounts ds = 0 := by omega
    have hlen : ds.length = 0 := by
      have := length_le_sumCounts ds h1
      omega
    simp only [trimLoopAux]
    rw [hsum, hlen]
    simp only [Nat.cast_zero]
    split_ifs with h
    · rfl
    · omega
  | succ fuel ih =>
    by_cases hguard : T < (sumCounts ds : ℤ) ∧ 1 < maxCount ds
    · obtain ⟨hT, hmax⟩ := hguard
      have hstep : trimLoopAux (fuel + 1) T ds =
          trimLoopAux fuel T (decAtLastMax ds) := by
        simp only [trimLoopAux]
        rw [if_pos ⟨hT, hmax⟩]
      rw [hstep]
      have hsum1 : sumCounts (decAtLastMax ds) + 1 = sumCounts ds :=
        decAtLastMax_sum ds hmax
      have hpos1 : ∀ d ∈ decAtLastMax ds, 1 ≤ d.topicCount :=
        decAtLastMax_all_pos ds h1 hmax
      have hlen1 : (decAtLastMax ds).length = ds.length :=
        decAtLastMax_length ds
      have hfe : sumCounts (decAtLastMax ds) ≤ fuel := by omega
      have hrec := ih (decAtLastMax ds) hfe hpos1
      rw [hrec, hlen1]
      have hS : ds.length + 1 ≤ sumCounts ds :=
        sumCounts_ge_len_add_one ds h1 hmax
      split_ifs with hA hB hB
      · omega
      · omega
      · omega
      · rfl
    · have hstep : trimLoopAux (fuel + 1) T ds = ds := by
        simp only [trimLoopAux]
        rw [if_neg hguard]
      rw [hstep]
      split_ifs with hA
      · rfl
      · have hT : T < (sumCounts ds : ℤ) := by omega
        have hmax : ¬(1 < maxCount ds) := fun hm => hguard ⟨hT, hm⟩
        have hle1 : ∀ d ∈ ds, d.topicCount ≤ 1 := fun d hd =>
          le_trans (count_le_maxCount ds d hd) (by omega)
        have hge := length_le_sumCounts ds h1
        have hle := sumCounts_le_len ds hle1
        omega

theorem trimLoopAux_preserves (fuel : Nat) (T : ℤ)
    (ds : List SubjectDistribution)
    (h1 : ∀ d ∈ ds, 1 ≤ d.topicCount)
    (hlen : ∀ d ∈ ds, d.topics.length = d.topicCount) :
    (∀ d ∈ trimLoopAux fuel T ds,
      1 ≤ d.topicCount ∧ d.topics.length = d.topicCount) ∧
    (trimLoopAux fuel T ds).map (fun d => d.subjectId) =
      ds.map (fun d => d.subjectId) := by
  induction fuel generalizing ds with
  | zero =>
    simp only [trimLoopAux]
    exact ⟨fun d hd => ⟨h1 d hd, hlen d hd⟩, trivial⟩
  | succ fuel ih =>
    simp only [trimLoopAux]
    split_ifs with hguard
    · obtain ⟨_, hmax⟩ := hguard
      have hrec := ih (decAtLastMax ds)
        (decAtLastMax_all_pos ds h1 hmax)
        (decAtLastMax_topicsLen ds hlen)
      refine ⟨hrec.1, ?_⟩
      rw [hrec.2, decAtLastMax_map_subjectId]
    · exact ⟨fun d hd => ⟨h1 d hd, hlen d hd⟩, rfl⟩

theorem trimLoop_sum (T : ℤ) (ds : List SubjectDistribution)
    (h1 : ∀ d ∈ ds, 1 ≤ d.topicCount) :
    (sumCounts (trimLoop T ds) : ℤ) =
      if (sumCounts ds : ℤ) ≤ T then (sumCounts ds : ℤ)
      else max T (ds.length : ℤ) :=
  trimLoopAux_sum (sumCounts ds) T ds le_rfl h1

theorem trimLoop_preserves (T : ℤ) (ds : List SubjectDistribution)
    (h1 : ∀ d ∈ ds, 1 ≤ d.topicCount)
    (hlen : ∀ d ∈ ds, d.topics.length = d.topicCount) :
    (∀ d ∈ trimLoop T ds,
      1 ≤ d.topicCount ∧ d.topics.length = d.topicCount) ∧
    (trimLoop T ds).map (fun d => d.subjectId) =
      ds.map (fun d => d.subjectId) :=
  trimLoopAux_preserves (sumCounts ds) T ds h1 hlen

theorem sortDist_perm (ds : List SubjectDistribution) :
    (sortDist ds).Perm ds :=
  List.mergeSort_perm ds _

theorem sortDist_sumCounts (ds : List SubjectDistribution) :
    sumCounts (sortDist ds) = sumCounts ds := by
  unfold sumCounts
  exact ((sortDist_perm ds).map (fun d => d.topicCount)).sum_eq

theorem sortDist_mem (ds : List SubjectDistribution)
    (d : SubjectDistribution) :
    d ∈ sortDist ds ↔ d ∈ ds :=
  (sortDist_perm ds).mem_iff

theorem length_totalTopics (ds : List SubjectDistribution)
    (hlen : ∀ d ∈ ds, d.topics.length = d.topicCount) :
    (ds.flatMap (fun d => d.topics)).length = sumCounts ds := by
  rw [List.length_flatMap]
  unfold sumCounts
  exact congrArg List.sum (List.map_congr_left (fun d hd => hlen d hd))

theorem calc_dist_distribution (topics : List PlanTopic) (dailyHours : ℚ)
    (hne : ¬((pendingOf topics).length = 0)) :
    (calculateDynamicDistribution topics dailyHours).distribution =
      sortDist (trimLoop
        (min ⌊dailyHours * 60 / AVERAGE_TOPIC_MINUTES⌋
          ((pendingOf topics).length : ℤ))
        (firstPass (pendingOf topics)
          (min ⌊dailyHours * 60 / AVERAGE_TOPIC_MINUTES⌋
            ((pendingOf topics).length : ℤ)))) := by
  simp only [calculateDynamicDistribution]
  rw [if_neg hne]

theorem calc_dist_totalTopics (topics : List PlanTopic) (dailyHours : ℚ)
    (hne : ¬((pendingOf topics).length = 0)) :
    (calculateDynamicDistribution topics dailyHours).totalTopics.length =
      sumCounts (trimLoop
        (min ⌊dailyHours * 60 / AVERAGE_TOPIC_MINUTES⌋
          ((pendingOf topics).length : ℤ))
        (firstPass (pendingOf topics)
          (min ⌊dailyHours * 60 / AVERAGE_TOPIC_MINUTES⌋
            ((pendingOf topics).length : ℤ)))) := by
  simp only [calculateDynamicDistribution]
  rw [if_neg hne]
  show ((sortDist _).flatMap (fun d => d.topics)).length = _
  have hpres := trimLoop_preserves
    (min ⌊dailyHours * 60 / AVERAGE_TOPIC_MINUTES⌋
      ((pendingOf topics).length : ℤ))
    (firstPass (pendingOf topics)
      (min ⌊dailyHours * 60 / AVERAGE_TOPIC_MINUTES⌋
        ((pendingOf topics).length : ℤ)))
    (fun d hd => (firstPass_all_pos _ _ d hd).1)
    (fun d hd => (firstPass_all_pos _ _ d hd).2)
  rw [length_totalTopics _ (fun d hd =>
    ((hpres.1 d ((sortDist_mem _ d).mp hd)).2))]
  exact sortDist_sumCounts _

/-- C6: every subject that has at least one pending topic receives an
entry with `topicCount >= 1` in the returned distribution — including
when `maxTopicsToday = 0`, since the reduction pass never lowers a
subject below 1. -/
theorem allocator_fairness_floor (topics : List PlanTopic) (dailyHours : ℚ)
    (sid : String) (hp : ∃ t ∈ pendingOf topics, t.subjectId = sid) :
    ∃ d ∈ (calculateDynamicDistribution topics dailyHours).distribution,
      d.subjectId = sid ∧ 1 ≤ d.topicCount := by
  obtain ⟨t0, ht0, ht0s⟩ := hp
  have hne : ¬((pendingOf topics).length = 0) := by
    intro h0
    rw [List.length_eq_zero] at h0
    rw [h0] at ht0
    cases ht0
  rw [calc_dist_distribution topics dailyHours hne]
  have hpres := trimLoop_preserves
    (min ⌊dailyHours * 60 / AVERAGE_TOPIC_MINUTES⌋
      ((pendingOf topics).length : ℤ))
    (firstPass (pendingOf topics)
      (min ⌊dailyHours * 60 / AVERAGE_TOPIC_MINUTES⌋
        ((pendingOf topics).length : ℤ)))
    (fun d hd => (firstPass_all_pos _ _ d hd).1)
    (fun d hd => (firstPass_all_pos _ _ d hd).2)
  have hsid : sid ∈ subjectIdsIn (pendingOf topics) :=
    (mem_subjectIdsIn _ sid).mpr ⟨t0, ht0, ht0s⟩
  have hmap : sid ∈ (trimLoop
      (min ⌊dailyHours * 60 / AVERAGE_TOPIC_MINUTES⌋
        ((pendingOf topics).length : ℤ))
      (firstPass (pendingOf topics)
        (min ⌊dailyHours * 60 / AVERAGE_TOPIC_MINUTES⌋
          ((pendingOf topics).length : ℤ)))).map (fun d => d.subjectId) := by
    rw [hpres.2, firstPass_map_subjectId]
    exact hsid
  rcases List.mem_map.mp hmap with ⟨d, hd, hds⟩
  exact ⟨d, (sortDist_mem _ d).mpr hd, hds, (hpres.1 d hd).1⟩

theorem allocator_fairness_floor_witness :
    ∃ d ∈ (calculateDynamicDistribution
      [{ id := "t1", name := "T1", status := some "pending",
         confidence := none, subjectId := "s1",
         subjectName := "S1", color := "blue" }] 0).distribution,
      d.subjectId = "s1" ∧ 1 ≤ d.topicCount :=
  allocator_fairness_floor _ 0 "s1"
    ⟨{ id := "t1", name := "T1", status := some "pending",
       confidence := none, subjectId := "s1",
       subjectName := "S1", color := "blue" }, by decide, rfl⟩

/-- C7: the sum of `topicCount` over the returned distribution is at
most `max(maxTopicsToday, numberOfSubjectsWithPendingWork)` and at most
`totalPendingTopics`, where `maxTopicsToday = ⌊dailyHours * 60 / 30⌋`. -/
theorem allocator_conservation (topics : List PlanTopic) (dailyHours : ℚ) :
    (sumCounts (calculateDynamicDistribution topics dailyHours).distribution : ℤ)
        ≤ max ⌊dailyHours * 60 / 30⌋
            ((subjectIdsIn (pendingOf topics)).length : ℤ) ∧
    sumCounts (calculateDynamicDistribution topics dailyHours).distribution
        ≤ (pendingOf topics).length := by
  have hAT : (AVERAGE_TOPIC_MINUTES : ℚ) = 30 := rfl
  by_cases hne : (pendingOf topics).length = 0
  · constructor
    · simp only [calculateDynamicDistribution]
      rw [if_pos hne]
      show (sumCounts [] : ℤ) ≤ _
      have h0 : sumCounts ([] : List SubjectDistribution) = 0 := rfl
      rw [h0]
      have : (0 : ℤ) ≤ ((subjectIdsIn (pendingOf topics)).length : ℤ) := by
        positivity
      exact le_trans this (le_max_right _ _)
    · simp only [calculateDynamicDistribution]
      rw [if_pos hne]
      show sumCounts [] ≤ _
      exact Nat.zero_le _
  · rw [calc_dist_distribution topics dailyHours hne, sortDist_sumCounts]
    rw [hAT]
    have h1 : ∀ d ∈ firstPass (pendingOf topics)
        (min ⌊dailyHours * 60 / 30⌋ ((pendingOf topics).length : ℤ)),
        1 ≤ d.topicCount := fun d hd => (firstPass_all_pos _ _ d hd).1
    have hform := trimLoop_sum
      (min ⌊dailyHours * 60 / 30⌋ ((pendingOf topics).length : ℤ))
      (firstPass (pendingOf topics)
        (min ⌊dailyHours * 60 / 30⌋ ((pendingOf topics).length : ℤ))) h1
    have hfle := firstPass_sum_le_pend (pendingOf topics)
      (min ⌊dailyHours * 60 / 30⌋ ((pendingOf topics).length : ℤ))
    have hslen := firstPass_length (pendingOf topics)
      (min ⌊dailyHours * 60 / 30⌋ ((pendingOf topics).length : ℤ))
    have hsle : (firstPass (pendingOf topics)
        (min ⌊dailyHours * 60 / 30⌋ ((pendingOf topics).length : ℤ))).length
        ≤ sumCounts (firstPass (pendingOf topics)
          (min ⌊dailyHours * 60 / 30⌋ ((pendingOf topics).length : ℤ))) :=
      length_le_sumCounts _ h1
    rw [hslen] at hform hsle
    split_ifs at hform with hcase
    · constructor
      · rw [hform]
        refine le_trans hcase (le_trans (min_le_left _ _) (le_max_left _ _))
      · have : (sumCounts (trimLoop
            (min ⌊dailyHours * 60 / 30⌋ ((pendingOf topics).length : ℤ))
            (firstPass (pendingOf topics)
              (min ⌊dailyHours * 60 / 30⌋
                ((pendingOf topics).length : ℤ)))) : ℤ) =
            (sumCounts (firstPass (pendingOf topics)
              (min ⌊dailyHours * 60 / 30⌋
                ((pendingOf topics).length : ℤ))) : ℤ) := hform
        omega
    · constructor
      · rw [hform]
        have hTm : min ⌊dailyHours * 60 / 30⌋
            ((pendingOf topics).length : ℤ) ≤ ⌊dailyHours * 60 / 30⌋ :=
          min_le_left _ _
        omega
      · have hTp : min ⌊dailyHours * 60 / 30⌋
            ((pendingOf topics).length : ℤ) ≤
            ((pendingOf topics).length : ℤ) := min_le_right _ _
        omega

/-- C8: with the topic list held fixed, the total number of topics the
allocator returns is non-strictly monotone in `dailyHours`. -/
theorem allocator_monotone_hours (topics : List PlanTopic) (hrs1 hrs2 : ℚ)
    (hle : hrs1 ≤ hrs2) :
    (calculateDynamicDistribution topics hrs1).totalTopics.length ≤
      (calculateDynamicDistribution topics hrs2).totalTopics.length := by
  have hAT : (AVERAGE_TOPIC_MINUTES : ℚ) = 30 := rfl
  by_cases hne : (pendingOf topics).length = 0
  · simp only [calculateDynamicDistribution]
    rw [if_pos hne, if_pos hne]
  · rw [calc_dist_totalTopics topics hrs1 hne,
      calc_dist_totalTopics topics hrs2 hne, hAT]
    have hT12 : min ⌊hrs1 * 60 / 30⌋ ((pendingOf topics).length : ℤ) ≤
        min ⌊hrs2 * 60 / 30⌋ ((pendingOf topics).length : ℤ) := by
      apply min_le_min _ le_rfl
      apply Int.floor_le_floor
      have h60 : hrs1 * 60 ≤ hrs2 * 60 := by linarith
      exact (div_le_div_right (by norm_num)).mpr h60
    have h1a : ∀ d ∈ firstPass (pendingOf topics)
        (min ⌊hrs1 * 60 / 30⌋ ((pendingOf topics).length : ℤ)),
        1 ≤ d.topicCount := fun d hd => (firstPass_all_pos _ _ d hd).1
    have h1b : ∀ d ∈ firstPass (pendingOf topics)
        (min ⌊hrs2 * 60 / 30⌋ ((pendingOf topics).length : ℤ)),
        1 ≤ d.topicCount := fun d hd => (firstPass_all_pos _ _ d hd).1
    have hf1 := trimLoop_sum
      (min ⌊hrs1 * 60 / 30⌋ ((pendingOf topics).length : ℤ)) _ h1a
    have hf2 := trimLoop_sum
      (min ⌊hrs2 * 60 / 30⌋ ((pendingOf topics).length : ℤ)) _ h1b
    have hmono := firstPass_sum_mono (pendingOf topics) _ _ hT12
    have hs1 := length_le_sumCounts _ h1a
    have hs2 := length_le_sumCounts _ h1b
    rw [firstPass_length] at hs1 hs2
    rw [firstPass_length] at hf1 hf2
    have hgoal : (sumCounts (trimLoop
        (min ⌊hrs1 * 60 / 30⌋ ((pendingOf topics).length : ℤ))
        (firstPass (pendingOf topics)
          (min ⌊hrs1 * 60 / 30⌋ ((pendingOf topics).length : ℤ)))) : ℤ) ≤
        (sumCounts (trimLoop
          (min ⌊hrs2 * 60 / 30⌋ ((pendingOf topics).length : ℤ))
          (firstPass (pendingOf topics)
            (min ⌊hrs2 * 60 / 30⌋
              ((pendingOf topics).length : ℤ)))) : ℤ) := by
      rw [hf1, hf2]
      split_ifs with hA hB hB
      · omega
      · omega
      · omega
      · omega
    omega

theorem allocator_monotone_hours_witness :
    (calculateDynamicDistribution
      [{ id := "t1", name := "T1", status := some "pending",
         confidence := none, subjectId := "s1",
         subjectName := "S1", color := "blue" }] 1).totalTopics.length ≤
      (calculateDynamicDistribution
        [{ id := "t1", name := "T1", status := some "pending",
           confidence := none, subjectId := "s1",
           subjectName := "S1", color := "blue" }] 2).totalTopics.length :=
  allocator_monotone_hours _ 1 2 (by norm_num)

/-- C10 counterexample: injecting a failure into the revision-task
insert (after a successful topic update) leaves the handler's response
byte-for-byte identical to the response of a fully successful run — a
success body claiming one revision was scheduled — even though no
revision task was written. The failure is only logged, never surfaced
to the caller. -/
theorem revision_failure_not_surfaced_cex :
    (saveQuizResult
        { topics := [{ id := "t1", user_id := "u1", status := some "pending",
                       confidence := none, last_quiz_score := none }],
          study_tasks := [], profiles := [] }
        { topicUpdateFails := false, studyTaskInsertFails := false,
          revisionInsertFails := true }
        "t1" 40 Confidence.low "u1" 100).2 =
      (saveQuizResult
        { topics := [{ id := "t1", user_id := "u1", status := some "pending",
                       confidence := none, last_quiz_score := none }],
          study_tasks := [], profiles := [] }
        { topicUpdateFails := false, studyTaskInsertFails := false,
          revisionInsertFails := false }
        "t1" 40 Confidence.low "u1" 100).2 ∧
    (saveQuizResult
        { topics := [{ id := "t1", user_id := "u1", status := some "pending",
                       confidence := none, last_quiz_score := none }],
          study_tasks := [], profiles := [] }
        { topicUpdateFails := false, studyTaskInsertFails := false,
          revisionInsertFails := true }
        "t1" 40 Confidence.low "u1" 100).2 =
      HandlerResponse.ok MStatus.weak 1 1 ∧
    ((saveQuizResult
        { topics := [{ id := "t1", user_id := "u1", status := some "pending",
                       confidence := none, last_quiz_score := none }],
          study_tasks := [], profiles := [] }
        { topicUpdateFails := false, studyTaskInsertFails := false,
          revisionInsertFails := true }
        "t1" 40 Confidence.low "u1" 100).1.study_tasks.filter
      (fun t => decide (t.task_type = TaskType.revision))) = [] ∧
    ((saveQuizResult
        { topics := [{ id := "t1", user_id := "u1", status := some "pending",
                       confidence := none, last_quiz_score := none }],
          study_tasks := [], profiles := [] }
        { topicUpdateFails := false, studyTaskInsertFails := false,
          revisionInsertFails := false }
        "t1" 40 Confidence.low "u1" 100).1.study_tasks.filter
      (fun t => decide (t.task_type = TaskType.revision))).length = 1 := by
  decide

/-- C10 (amended): if the topic-status update fails the handler
reports the error response and performs no writes at all — in
particular no revision-task writes; if the revision-task insert fails
after the topic update succeeded, the topic-status update is not
rolled back and no revision tasks are written, but the failure is not
surfaced: the handler still answers with the success body, whose
`revisionsScheduled` counts the tasks it merely attempted to insert. -/
theorem save_quiz_partial_failure (db : DBState) (f : DBFaults)
    (topicId : String) (score : ℤ) (conf : Confidence) (userId : String)
    (today : Nat) :
    (f.topicUpdateFails = true →
      (saveQuizResult db f topicId score conf userId today).2 =
        HandlerResponse.err "topic update failed" ∧
      (saveQuizResult db f topicId score conf userId today).1 = db) ∧
    (f.topicUpdateFails = false → f.revisionInsertFails = true →
      (saveQuizResult db f topicId score conf userId today).1.topics =
        updateTopicStatus db.topics topicId userId
          (classify score conf) conf score ∧
      (saveQuizResult db f topicId score conf userId today).1.study_tasks.filter
          (fun t => decide (t.task_type = TaskType.revision)) =
        db.study_tasks.filter
          (fun t => decide (t.task_type = TaskType.revision)) ∧
      ∃ n streak,
        (saveQuizResult db f topicId score conf userId today).2 =
          HandlerResponse.ok (classify score conf) n streak) := by
  constructor
  · intro h
    constructor <;> simp [saveQuizResult, h]
  · intro h hrev
    simp only [saveQuizResult, h, hrev]
    simp only [Bool.false_eq_true, Bool.not_true, Bool.not_false, and_false,
      if_false]
    refine ⟨?_, ?_, ?_⟩
    · split_ifs <;> rfl
    · split_ifs with hst
      · simp [List.filter_append]
      · rfl
    · split_ifs <;> exact ⟨_, _, rfl⟩

theorem save_quiz_partial_failure_witness :
    ∃ n streak,
      (saveQuizResult
        { topics := [{ id := "t1", user_id := "u1", status := some "pending",
                       confidence := none, last_quiz_score := none }],
          study_tasks := [], profiles := [] }
        { topicUpdateFails := false, studyTaskInsertFails := false,
          revisionInsertFails := true }
        "t1" 40 Confidence.low "u1" 100).2 =
      HandlerResponse.ok (classify 40 Confidence.low) n streak :=
  ((save_quiz_partial_failure
    { topics := [{ id := "t1", user_id := "u1", status := some "pending",
                   confidence := none, last_quiz_score := none }],
      study_tasks := [], profiles := [] }
    { topicUpdateFails := false, studyTaskInsertFails := false,
      revisionInsertFails := true }
    "t1" 40 Confidence.low "u1" 100).2 rfl rfl).2.2

end StudySphere
